import Mathlib

/-!
Verification development for the LMArena API Bridge userscript
(`TampermonkeyScript/LMArenaApiBridge.js`).

The development shallowly embeds the script's core logic:
stream chunks and URLs are modelled as `List Char` so that the
character-level scanning done by the script's regular expressions can be
stated exactly; opaque payload fields stay `String`.  Identifier
generation (`generateUUIDv7`) is modelled as an injective fresh-identifier
supply (a counter), since the script's identifiers are clock/randomness
based and every property of interest concerns only their number and
distinctness.  Asynchronous effects (WebSocket sends, the streamed fetch
response) are modelled by explicit traces and oracles.
-/

/-! ### Stream Demultiplexer (`filterStreamByTarget`)

The script builds `new RegExp(`${targetPosition}[0d]:[^\n]*`, 'g')` and
returns `chunk.match(pattern)` joined with `'\n'` plus a trailing `'\n'`,
or `null` when nothing matches.  The target position is a single
character (`'a'` or `'b'`), so it is modelled as a `Char`. -/

/-- Longest newline-free front of `l`: the greedy match of `[^\n]*`. -/
def lineBody (l : List Char) : List Char := l.takeWhile (fun c => c != '\n')

/-- Remainder of `l` after `lineBody l`; it is `[]` or starts with `'\n'`. -/
def lineRest (l : List Char) : List Char := l.dropWhile (fun c => c != '\n')

/-- The record-type marker class `[0d]` of the filter regex. -/
def isMarker (c : Char) : Bool := c == '0' || c == 'd'

/-- Does the regex `t[0d]:` match at the head of `l`? -/
def patternAtB (t : Char) : List Char → Bool
  | a :: b :: c :: _ => a == t && isMarker b && c == ':'
  | _ => false

/-- One attempt of the regex `t[0d]:[^\n]*` at the current position: on
success it returns the (greedy) match together with the remaining input. -/
def tryMatch (t : Char) : List Char → Option (List Char × List Char)
  | a :: b :: c :: rest =>
    if a == t && isMarker b && c == ':' then
      some (a :: b :: c :: lineBody rest, lineRest rest)
    else none
  | _ => none

/-- Fuelled left-to-right scan implementing the global regex match of
`t[0d]:[^\n]*`: non-overlapping matches, resuming right after each match.
The fuel is only a structural-recursion device; `l.length` fuel always
suffices because every step consumes at least one character. -/
def matchAllF (t : Char) : Nat → List Char → List (List Char)
  | 0, _ => []
  | _ + 1, [] => []
  | fuel + 1, x :: xs =>
    match tryMatch t (x :: xs) with
    | some (m, rest) => m :: matchAllF t fuel rest
    | none => matchAllF t fuel xs

/-- All matches of `t[0d]:[^\n]*` in `l`, left to right (JS `l.match(re)`). -/
def matchAll (t : Char) (l : List Char) : List (List Char) := matchAllF t l.length l

/-- JS `matches.join('\n')`. -/
def joinMatches : List (List Char) → List Char
  | [] => []
  | [m] => m
  | m :: m2 :: ms => m ++ '\n' :: joinMatches (m2 :: ms)

/-- Embedding of `filterStreamByTarget(chunk, targetPosition)`:
all regex matches joined with newlines plus a trailing newline, or `none`
(JS `null`) when there is no match. -/
def filterStreamByTarget (chunk : List Char) (targetPosition : Char) : Option (List Char) :=
  let ms := matchAll targetPosition chunk
  if ms.length > 0 then some (joinMatches ms ++ ['\n']) else none

/-! ### Spec-side demultiplexer

Modelled from the spec: the spec (§4.4) describes the demultiplexer as
extracting "every record whose leading two characters match `{target}0`
or `{target}d`", where records are the newline-delimited lines of the
chunk.  This record-anchored description is the second definition of a
refinement comparison against `filterStreamByTarget` above. -/

/-- Do the leading two characters of a record match the target tag plus a
record-type marker?  (The spec's record-eligibility test.) -/
def recordMatches (t : Char) (r : List Char) : Bool :=
  match r with
  | a :: b :: _ => a == t && isMarker b
  | _ => false

/-- Fuelled splitting of a chunk into its newline-delimited records. -/
def splitLinesF : Nat → List Char → List (List Char)
  | 0, l => [l]
  | fuel + 1, l =>
    match lineRest l with
    | [] => [lineBody l]
    | _ :: rest => lineBody l :: splitLinesF fuel rest

/-- The newline-delimited records (lines) of a chunk. -/
def splitLines (l : List Char) : List (List Char) := splitLinesF l.length l

/-- Spec-side demultiplexer: keep exactly the records whose leading two
characters match the target, in order, joined with newline separators and
a trailing newline; empty result is `none`. -/
def specDemuxFilter (chunk : List Char) (t : Char) : Option (List Char) :=
  let ms := (splitLines chunk).filter (recordMatches t)
  if ms.length > 0 then some (joinMatches ms ++ ['\n']) else none

/-- No occurrence of the pattern `t[0d]:` at any suffix of `l`. -/
def noPattern (t : Char) : List Char → Bool
  | [] => true
  | c :: cs => !patternAtB t (c :: cs) && noPattern t cs

/-- A record is benign for the record-anchored reading of the filter:
if it passes the spec's two-character test it really carries the full
`t[0d]:` head (well-formed record), and if it does not start with the
full pattern then the pattern occurs nowhere inside it. -/
def lineOkB (t : Char) (r : List Char) : Bool :=
  (!recordMatches t r || patternAtB t r) && (patternAtB t r || noPattern t r)

/-- Every record of the chunk is benign: the pattern `t[0d]:` occurs only
at record starts, and matching records are well-formed. -/
def anchoredB (t : Char) (chunk : List Char) : Bool :=
  (splitLines chunk).all (lineOkB t)

/-! ### Request Executor (`executeFetchAndStreamBack`)

Identifier generation is modelled by a counter `c0`: the `k`-th call of
`generateUUIDv7` during a request returns the identifier `c0 + k`.  The
network is an oracle `FetchResult` describing what the single `fetch`
call does; the WebSocket send path is the returned list of `OutData`
frames, all of which the script tags with the inbound `request_id`. -/

/-- One entry of `message_templates`.  `attachments` is `none` when the
field is absent or not an array (JS `Array.isArray` guard); a missing
`participantPosition` (or any falsy value) is `none`. -/
structure MessageTemplate where
  role : String
  content : String
  attachments : Option (List String)
  participantPosition : Option Char
deriving DecidableEq

/-- The `payload` of an inbound chat request. -/
structure Payload where
  is_image_request : Bool
  message_templates : Option (List MessageTemplate)
  target_model_id : String
  session_id : String
  battle_target : Option Char
deriving DecidableEq

/-- One entry of the `newMessages` array built by the executor. -/
structure Message where
  id : Nat
  evaluationSessionId : String
  role : String
  parentMessageIds : List Nat
  content : String
  experimental_attachments : List String
  participantPosition : Char
deriving DecidableEq

/-- The JSON body posted to the evaluation endpoint. -/
structure RequestBody where
  id : String
  mode : String
  userMessageId : Nat
  modelAMessageId : Nat
  modelBMessageId : Nat
  messages : List Message
  modality : String
deriving DecidableEq

/-- Data of one outbound frame sent through `sendToServer`: a filtered
stream chunk, the terminal sentinel `"[DONE]"`, or an `{error: msg}`. -/
inductive OutData where
  | chunk (s : List Char)
  | done
  | error (msg : String)
deriving DecidableEq

/-- Outcome of the in-page `fetch` of the evaluation endpoint. -/
structure NetResponse where
  ok : Bool
  hasBody : Bool
  status : Nat
  errorText : String
  chunks : List (List Char)
  readErr : Option String
deriving DecidableEq

/-- The network oracle: either the `fetch` call itself throws, or it
returns a response (whose body stream then yields `chunks` and either
ends cleanly, `readErr = none`, or throws `readErr = some msg`). -/
inductive FetchResult where
  | threw (msg : String)
  | got (r : NetResponse)
deriving DecidableEq

/-- Observable outcome of one `executeFetchAndStreamBack` run. -/
structure ExecResult where
  frames : List OutData
  ids : List Nat
  networkCalled : Bool
  flagAtFetch : Bool
  finalFlag : Bool
  reqBody : Option RequestBody
deriving DecidableEq

/-- The pre-flight error message for an empty `session_id`. -/
def sessionEmptyMsg : String :=
  "从后端收到的会话信息 (session_id) 为空。请先运行 `id_updater.py` 脚本进行设置。"

/-- The pre-flight error message for a missing or empty template list. -/
def templatesEmptyMsg : String := "从后端收到的消息列表为空。"

/-- The message of the error thrown for a non-ok or body-less response. -/
def badResponseMsg (r : NetResponse) : String :=
  "网络响应不正常。状态: " ++ toString r.status ++ ". 内容: " ++ r.errorText

/-- JS guard `!message_templates || message_templates.length === 0`. -/
def templatesMissingOrEmpty : Option (List MessageTemplate) → Bool
  | none => true
  | some l => l.length == 0

/-- The `newMessages` construction loop: one fresh identifier per
template, preserving order, defaulting `participantPosition` to `'b'`
and `experimental_attachments` to `[]`. -/
def buildMessages (sid : String) : List MessageTemplate → Nat → List Message
  | [], _ => []
  | t :: ts, c =>
    { id := c
      evaluationSessionId := sid
      role := t.role
      parentMessageIds := []
      content := t.content
      experimental_attachments := t.attachments.getD []
      participantPosition := t.participantPosition.getD 'b' } :: buildMessages sid ts (c + 1)

/-- The streaming relay loop: each chunk is filtered by the battle
target and forwarded when non-empty; on clean exhaustion the sentinel
`[DONE]` is sent, while a read exception sends an error frame instead. -/
def streamFrames (target : Char) : List (List Char) → Option String → List OutData
  | [], none => [OutData.done]
  | [], some msg => [OutData.error msg]
  | c :: cs, e =>
    match filterStreamByTarget c target with
    | some f => OutData.chunk f :: streamFrames target cs e
    | none => streamFrames target cs e

/-- Embedding of `executeFetchAndStreamBack(requestId, payload)`.
`c0` is the identifier-supply counter and `flag0` the value of
`window.isApiBridgeRequest` on entry.  The pre-flight validations return
before the flag is touched; the submission phase sets the flag, runs the
fetch, and clears the flag in a `finally` on every exit path. -/
def executeFetchAndStreamBack (payload : Payload) (net : FetchResult) (c0 : Nat)
    (flag0 : Bool) : ExecResult :=
  if payload.session_id = "" then
    { frames := [OutData.error sessionEmptyMsg, OutData.done]
      ids := []
      networkCalled := false
      flagAtFetch := false
      finalFlag := flag0
      reqBody := none }
  else if templatesMissingOrEmpty payload.message_templates then
    { frames := [OutData.error templatesEmptyMsg, OutData.done]
      ids := []
      networkCalled := false
      flagAtFetch := false
      finalFlag := flag0
      reqBody := none }
  else
    let templates := payload.message_templates.getD []
    let newMessages := buildMessages payload.session_id templates (c0 + 3)
    let body : RequestBody :=
      { id := payload.session_id
        mode := "battle"
        userMessageId := c0
        modelAMessageId := c0 + 1
        modelBMessageId := c0 + 2
        messages := newMessages
        modality := "chat" }
    let targetPosition := payload.battle_target.getD 'b'
    let frames :=
      match net with
      | FetchResult.threw msg => [OutData.error msg]
      | FetchResult.got r =>
        if !r.ok || !r.hasBody then [OutData.error (badResponseMsg r)]
        else streamFrames targetPosition r.chunks r.readErr
    { frames := frames
      ids := c0 :: (c0 + 1) :: (c0 + 2) :: newMessages.map Message.id
      networkCalled := true
      flagAtFetch := true
      finalFlag := false
      reqBody := some body }

/-! ### Session Capture Interceptor (the `window.fetch` wrapper)

The wrapper observes the URL of every outbound call, then forwards the
call to the original `fetch` unconditionally.  The observation may
disarm the capture flag and attempt one delivery of the captured session
identifier; `deliveryOk` is the outcome of that asynchronous delivery
(the `.then`/`.catch` of the inner report `fetch`), which the script only
logs and never uses to change state. -/

/-- The first `fetch` argument: a `Request` object, a `URL` object, a
string, or anything else (for which no URL string is extracted). -/
inductive UrlArg where
  | request (url : List Char)
  | urlObj (href : List Char)
  | str (s : List Char)
  | other
deriving DecidableEq

/-- The argument list of a `fetch` call: the URL-bearing first argument
plus opaque further arguments (init options and the like). -/
structure FetchArgs where
  arg0 : UrlArg
  restArgs : List String
deriving DecidableEq

/-- The `urlString` extraction chain of the wrapper. -/
def extractUrl : UrlArg → List Char
  | UrlArg.request u => u
  | UrlArg.urlObj h => h
  | UrlArg.str s => s
  | UrlArg.other => []

/-- The character class `[a-f0-9-]` of the capture regex. -/
def isIdChar (c : Char) : Bool :=
  ('a' ≤ c && c ≤ 'f') || ('0' ≤ c && c ≤ '9') || c == '-'

/-- First literal of the capture regex. -/
def retryLit1 : List Char := "/nextjs-api/stream/retry-evaluation-session-message/".toList

/-- Second literal of the capture regex. -/
def retryLit2 : List Char := "/messages/".toList

/-- One attempt of the capture regex at the current position: both
identifier groups must be non-empty runs of `[a-f0-9-]`; on success the
first capture group (the session identifier) is returned.  Since `/` is
not in the identifier class, the greedy groups need no backtracking. -/
def tryRetryAt (l : List Char) : Option (List Char) :=
  if l.take retryLit1.length = retryLit1 then
    let rest := l.drop retryLit1.length
    let g1 := rest.takeWhile isIdChar
    if g1.length == 0 then none
    else
      let rest2 := rest.drop g1.length
      if rest2.take retryLit2.length = retryLit2 then
        let rest3 := rest2.drop retryLit2.length
        if (rest3.takeWhile isIdChar).length == 0 then none else some g1
      else none
  else none

/-- Left-to-right search of the capture regex
`\/nextjs-api\/stream\/retry-evaluation-session-message\/([a-f0-9-]+)\/messages\/([a-f0-9-]+)`
over the URL string, returning the first capture group of the first
match (JS `urlString.match(...)` and `match[1]`). -/
def findRetryMatch : List Char → Option (List Char)
  | [] => none
  | c :: cs =>
    match tryRetryAt (c :: cs) with
    | some g => some g
    | none => findRetryMatch cs

/-- Side events of one observation, in the order the wrapper performs
them: disarming the capture flag strictly precedes the delivery attempt. -/
inductive CaptureEvent where
  | disarm
  | deliver (sessionId : List Char) (ok : Bool)
deriving DecidableEq

/-- Result of one call through the wrapped `fetch`. -/
structure InterceptResult (α : Type) where
  result : α
  newCapture : Bool
  delivery : Option (List Char)
  events : List CaptureEvent

/-- Embedding of the `window.fetch` wrapper.  The observation part reads
the URL and, only when a capture-regex match exists, the call is not
bridge-initiated and capture mode is armed, disarms capture mode and then
attempts one delivery of the captured identifier; in every case the call
is forwarded to the real `fetch` with the original arguments. -/
def interceptFetch {α : Type} (realFetch : FetchArgs → α)
    (isApiBridgeRequest isCaptureModeActive deliveryOk : Bool)
    (args : FetchArgs) : InterceptResult α :=
  let urlString := extractUrl args.arg0
  let ob : Bool × Option (List Char) × List CaptureEvent :=
    if urlString.length == 0 then (isCaptureModeActive, none, [])
    else
      match findRetryMatch urlString with
      | some sessionId =>
        if !isApiBridgeRequest && isCaptureModeActive then
          (false, some sessionId,
            [CaptureEvent.disarm, CaptureEvent.deliver sessionId deliveryOk])
        else (isCaptureModeActive, none, [])
      | none => (isCaptureModeActive, none, [])
  { result := realFetch args
    newCapture := ob.1
    delivery := ob.2.1
    events := ob.2.2 }

/-- Threading a sequence of observations (bridge flag, delivery outcome,
arguments) through the wrapper, starting from a given capture-mode state:
returns the final capture-mode state and the number of delivery attempts. -/
def runObservations (capture0 : Bool) : List (Bool × Bool × FetchArgs) → Bool × Nat
  | [] => (capture0, 0)
  | (bridge, dOk, args) :: obs =>
    let r := interceptFetch (fun _ => ()) bridge capture0 dOk args
    let rest := runObservations r.newCapture obs
    (rest.1, (if r.delivery.isSome then 1 else 0) + rest.2)

/-- The control commands the dispatcher understands. -/
inductive Command where
  | refresh
  | reconnect
  | activate_id_capture
  | send_page_source
deriving DecidableEq

/-- Effect of the command dispatcher on the capture-mode flag:
`activate_id_capture` arms it; `refresh`/`reconnect` reload the page,
re-running the script from its initial disarmed state; `send_page_source`
leaves it unchanged. -/
def applyCommandCapture : Command → Bool → Bool
  | Command.activate_id_capture, _ => true
  | Command.refresh, _ => false
  | Command.reconnect, _ => false
  | Command.send_page_source, b => b


/-- Frame discriminator: is this frame a (filtered) data chunk? -/
def isChunkFrame : OutData → Bool
  | OutData.chunk _ => true
  | OutData.done => false
  | OutData.error _ => false

/-- Frame discriminator: is this frame the terminal sentinel? -/
def isDoneFrame : OutData → Bool
  | OutData.chunk _ => false
  | OutData.done => true
  | OutData.error _ => false

/-! ### Concrete inputs used by counterexamples and witnesses -/

/-- A minimal message template. -/
def c1Template : MessageTemplate :=
  { role := "user", content := "hi", attachments := none, participantPosition := none }

/-- A valid payload with exactly one message template. -/
def c1Payload : Payload :=
  { is_image_request := false, message_templates := some [c1Template],
    target_model_id := "m", session_id := "sess", battle_target := none }

/-- A payload failing the `session_id` pre-flight validation. -/
def c4Payload : Payload :=
  { is_image_request := false, message_templates := some [c1Template],
    target_model_id := "m", session_id := "", battle_target := none }

/-- A chunk whose single record is `a`-tagged but whose payload contains
the character sequence `b0:` mid-line. -/
def c3Chunk : List Char := "a0:\"b0:hi\"\n".toList

/-- The spec's worked demultiplexer example chunk. -/
def specExampleChunk : List Char := "a0:\"x\"\nb0:\"y\"\nbd:\x7b\"z\":1\x7d\n".toList

/-- The spec's expected output for `specExampleChunk` with target `b`. -/
def specExampleOut : List Char := "b0:\"y\"\nbd:\x7b\"z\":1\x7d\n".toList

/-- A chunk containing only `b`-tagged records. -/
def c9Chunk : List Char := "b0:\"y\"\nbd:z\n".toList

/-- A chunk whose single record is `a`-tagged with `bd:` occurring
mid-line inside its payload. -/
def c10Chunk : List Char := "a0:\"see bd:ev here\"\n".toList

/-- Arguments of an observed call whose URL matches the capture regex. -/
def c6Args : FetchArgs :=
  { arg0 := UrlArg.str
      "/nextjs-api/stream/retry-evaluation-session-message/abc-123/messages/def-456".toList,
    restArgs := [] }

/-- The session identifier embedded in `c6Args`. -/
def c6Sid : List Char := "abc-123".toList


/-! ### Lemmas about line splitting and the stream pattern -/

theorem lineBody_append_lineRest (l : List Char) : lineBody l ++ lineRest l = l :=
  List.takeWhile_append_dropWhile _ _

theorem mem_lineBody_ne_newline {l : List Char} {c : Char} (h : c ∈ lineBody l) :
    c ≠ '\n' := by
  have := List.mem_takeWhile_imp h
  simpa using this

theorem lineRest_shape (l : List Char) : lineRest l = [] ∨ ∃ u, lineRest l = '\n' :: u := by
  induction l with
  | nil => exact Or.inl rfl
  | cons c cs ih =>
    by_cases h : c = '\n'
    · subst h
      exact Or.inr ⟨cs, by simp [lineRest, List.dropWhile_cons]⟩
    · have h2 : lineRest (c :: cs) = lineRest cs := by
        simp [lineRest, List.dropWhile_cons, h]
      rw [h2]
      exact ih

theorem lineRest_length_le (l : List Char) : (lineRest l).length ≤ l.length :=
  (List.dropWhile_sublist _).length_le

theorem tryMatch_rest_lt {t : Char} {l m rest : List Char}
    (h : tryMatch t l = some (m, rest)) : rest.length < l.length := by
  match l with
  | [] => simp [tryMatch] at h
  | [_] => simp [tryMatch] at h
  | [_, _] => simp [tryMatch] at h
  | a :: b :: c :: r0 =>
    simp only [tryMatch] at h
    split at h
    · obtain ⟨hm, hr⟩ : a :: b :: c :: lineBody r0 = m ∧ lineRest r0 = rest := by
        simpa using h
      have hle := lineRest_length_le r0
      rw [← hr]
      simp only [List.length_cons]
      omega
    · simp at h

theorem tryMatch_none {t : Char} {l : List Char} (h : patternAtB t l = false) :
    tryMatch t l = none := by
  match l with
  | [] => simp [tryMatch]
  | [_] => simp [tryMatch]
  | [_, _] => simp [tryMatch]
  | a :: b :: c :: r0 =>
    simp only [patternAtB] at h
    simp [tryMatch, h]

theorem patternAtB_shape {t : Char} {l : List Char} (h : patternAtB t l = true) :
    ∃ b rest, l = t :: b :: ':' :: rest ∧ isMarker b = true := by
  match l with
  | [] => simp [patternAtB] at h
  | [_] => simp [patternAtB] at h
  | [_, _] => simp [patternAtB] at h
  | a :: b :: c :: r0 =>
    simp only [patternAtB, Bool.and_eq_true, beq_iff_eq] at h
    obtain ⟨⟨ha, hb⟩, hc⟩ := h
    exact ⟨b, r0, by rw [ha, hc], hb⟩

theorem isMarker_ne_newline {b : Char} (h : isMarker b = true) : b ≠ '\n' := by
  simp only [isMarker, Bool.or_eq_true, beq_iff_eq] at h
  rcases h with h | h <;> subst h <;> decide

theorem patternAtB_append {t : Char} {l : List Char} (u : List Char)
    (h : patternAtB t l = true) : patternAtB t (l ++ u) = true := by
  obtain ⟨b, rest, rfl, hb⟩ := patternAtB_shape h
  simp [patternAtB, hb]

theorem patternAtB_of_append_tail {t : Char} (ht : t ≠ '\n') {v tail : List Char}
    (htail : tail = [] ∨ ∃ u, tail = '\n' :: u)
    (h : patternAtB t (v ++ tail) = true) : patternAtB t v = true := by
  match v with
  | [] =>
    rcases htail with rfl | ⟨u, rfl⟩
    · simp [patternAtB] at h
    · obtain ⟨b, rest, heq, hb⟩ := patternAtB_shape h
      injection heq with h1 _
      exact absurd h1.symm ht
  | [x] =>
    rcases htail with rfl | ⟨u, rfl⟩
    · simp [patternAtB] at h
    · obtain ⟨b, rest, heq, hb⟩ := patternAtB_shape h
      injection heq with h1 h2
      injection h2 with h3 _
      rw [← h3] at hb
      exact absurd hb (by decide)
  | [x, y] =>
    rcases htail with rfl | ⟨u, rfl⟩
    · simp [patternAtB] at h
    · obtain ⟨b, rest, heq, hb⟩ := patternAtB_shape h
      injection heq with h1 h2
      injection h2 with h3 h4
      injection h4 with h5 _
      exact absurd h5 (by decide)
  | x :: y :: z :: v' =>
    simp only [List.cons_append, patternAtB] at h
    simpa [patternAtB] using h

theorem lineBody_pattern_cons {t b : Char} {rest : List Char} (ht : t ≠ '\n')
    (hb : isMarker b = true) :
    lineBody (t :: b :: ':' :: rest) = t :: b :: ':' :: lineBody rest := by
  have h3 : (':' : Char) ≠ '\n' := by decide
  simp [lineBody, List.takeWhile_cons, ht, isMarker_ne_newline hb, h3]

theorem lineRest_pattern_cons {t b : Char} {rest : List Char} (ht : t ≠ '\n')
    (hb : isMarker b = true) :
    lineRest (t :: b :: ':' :: rest) = lineRest rest := by
  have h3 : (':' : Char) ≠ '\n' := by decide
  simp [lineRest, List.dropWhile_cons, ht, isMarker_ne_newline hb, h3]

theorem tryMatch_eq_some {t : Char} {l : List Char} (ht : t ≠ '\n')
    (h : patternAtB t l = true) : tryMatch t l = some (lineBody l, lineRest l) := by
  obtain ⟨b, rest, rfl, hb⟩ := patternAtB_shape h
  rw [lineBody_pattern_cons ht hb, lineRest_pattern_cons ht hb]
  simp [tryMatch, hb]

theorem recordMatches_of_pattern {t : Char} {l : List Char} (h : patternAtB t l = true) :
    recordMatches t l = true := by
  obtain ⟨b, rest, rfl, hb⟩ := patternAtB_shape h
  simp [recordMatches, hb]

theorem recordMatches_lineBody_of_pattern {t : Char} {l : List Char} (ht : t ≠ '\n')
    (h : patternAtB t l = true) : recordMatches t (lineBody l) = true := by
  obtain ⟨b, rest, rfl, hb⟩ := patternAtB_shape h
  rw [lineBody_pattern_cons ht hb]
  simp [recordMatches, hb]

theorem matchAllF_congr (t : Char) :
    ∀ (f g : Nat) (l : List Char), l.length ≤ f → l.length ≤ g →
      matchAllF t f l = matchAllF t g l := by
  intro f
  induction f with
  | zero =>
    intro g l hf _
    have hl : l = [] := List.length_eq_zero.mp (Nat.le_zero.mp hf)
    subst hl
    cases g <;> simp [matchAllF]
  | succ f ih =>
    intro g l hf hg
    match l with
    | [] => cases g <;> simp [matchAllF]
    | x :: xs =>
      match g with
      | 0 => simp at hg
      | g + 1 =>
        cases hm : tryMatch t (x :: xs) with
        | some p =>
          obtain ⟨m, rest⟩ := p
          have hlt := tryMatch_rest_lt hm
          simp only [List.length_cons] at hf hg hlt
          simp only [matchAllF, hm]
          rw [ih g rest (by omega) (by omega)]
        | none =>
          simp only [List.length_cons] at hf hg
          simp only [matchAllF, hm]
          exact ih g xs (by omega) (by omega)

theorem matchAll_nil (t : Char) : matchAll t [] = [] := rfl

theorem matchAll_cons_some {t x : Char} {xs m rest : List Char}
    (h : tryMatch t (x :: xs) = some (m, rest)) :
    matchAll t (x :: xs) = m :: matchAll t rest := by
  have hlt := tryMatch_rest_lt h
  simp only [List.length_cons] at hlt
  unfold matchAll
  simp only [List.length_cons, matchAllF, h]
  rw [matchAllF_congr t xs.length rest.length rest (by omega) le_rfl]

theorem matchAll_cons_none {t x : Char} {xs : List Char}
    (h : tryMatch t (x :: xs) = none) : matchAll t (x :: xs) = matchAll t xs := by
  unfold matchAll
  simp only [List.length_cons, matchAllF, h]

theorem matchAll_pattern {t : Char} {l : List Char} (ht : t ≠ '\n')
    (h : patternAtB t l = true) :
    matchAll t l = lineBody l :: matchAll t (lineRest l) := by
  obtain ⟨b, rest, heq, hb⟩ := patternAtB_shape h
  subst heq
  exact matchAll_cons_some (tryMatch_eq_some ht h)

theorem matchAll_newline {t : Char} (ht : t ≠ '\n') (u : List Char) :
    matchAll t ('\n' :: u) = matchAll t u := by
  apply matchAll_cons_none
  apply tryMatch_none
  have hne : ('\n' == t) = false := beq_eq_false_iff_ne.mpr (Ne.symm ht)
  match u with
  | [] => simp [patternAtB]
  | [_] => simp [patternAtB]
  | a :: b :: u' => simp [patternAtB, hne]

theorem matchAll_skip {t : Char} (ht : t ≠ '\n') :
    ∀ (s : List Char), noPattern t s = true →
      ∀ (tail : List Char), (tail = [] ∨ ∃ u, tail = '\n' :: u) →
        matchAll t (s ++ tail) = matchAll t tail := by
  intro s
  induction s with
  | nil => intro _ tail _; simp
  | cons c s' ih =>
    intro hnp tail htail
    simp only [noPattern, Bool.and_eq_true, Bool.not_eq_true'] at hnp
    obtain ⟨hp0, hnp'⟩ := hnp
    have hfail : patternAtB t ((c :: s') ++ tail) = false := by
      cases hq : patternAtB t ((c :: s') ++ tail) with
      | false => rfl
      | true =>
        have := patternAtB_of_append_tail ht htail hq
        rw [hp0] at this
        exact absurd this (by simp)
    have hstep : matchAll t (c :: (s' ++ tail)) = matchAll t (s' ++ tail) :=
      matchAll_cons_none (tryMatch_none (by simpa using hfail))
    rw [List.cons_append, hstep]
    exact ih hnp' tail htail

theorem splitLinesF_congr :
    ∀ (f g : Nat) (l : List Char), l.length ≤ f → l.length ≤ g →
      splitLinesF f l = splitLinesF g l := by
  intro f
  induction f with
  | zero =>
    intro g l hf _
    have hl : l = [] := List.length_eq_zero.mp (Nat.le_zero.mp hf)
    subst hl
    cases g with
    | zero => rfl
    | succ g => simp [splitLinesF, lineRest, lineBody]
  | succ f ih =>
    intro g l hf hg
    match g with
    | 0 =>
      have hl : l = [] := List.length_eq_zero.mp (Nat.le_zero.mp hg)
      subst hl
      simp [splitLinesF, lineRest, lineBody]
    | g + 1 =>
      cases hr : lineRest l with
      | nil => simp only [splitLinesF, hr]
      | cons x rest =>
        have hle : (x :: rest).length ≤ l.length := hr ▸ lineRest_length_le l
        simp only [List.length_cons] at hle
        simp only [splitLinesF, hr]
        rw [ih g rest (by omega) (by omega)]

theorem splitLines_nilRest {l : List Char} (h : lineRest l = []) :
    splitLines l = [lineBody l] := by
  cases l with
  | nil => simp [splitLines, splitLinesF, lineBody]
  | cons x xs =>
    unfold splitLines
    simp only [List.length_cons, splitLinesF, h]

theorem splitLines_consRest {l : List Char} {x : Char} {rest : List Char}
    (h : lineRest l = x :: rest) : splitLines l = lineBody l :: splitLines rest := by
  have hle : (x :: rest).length ≤ l.length := h ▸ lineRest_length_le l
  simp only [List.length_cons] at hle
  cases l with
  | nil => simp [lineRest] at h
  | cons y ys =>
    unfold splitLines
    simp only [List.length_cons] at hle ⊢
    simp only [splitLinesF, h]
    rw [splitLinesF_congr ys.length rest.length rest (by omega) le_rfl]

theorem matchAll_eq_filter {t : Char} (ht : t ≠ '\n') :
    ∀ (n : Nat) (chunk : List Char), chunk.length ≤ n → anchoredB t chunk = true →
      matchAll t chunk = (splitLines chunk).filter (recordMatches t) := by
  intro n
  induction n with
  | zero =>
    intro chunk hn _
    have hc : chunk = [] := List.length_eq_zero.mp (Nat.le_zero.mp hn)
    subst hc
    rfl
  | succ n ih =>
    intro chunk hn hanch
    have hhead : lineOkB t (lineBody chunk) = true := by
      unfold anchoredB at hanch
      rcases lineRest_shape chunk with hnil | ⟨u, hu⟩
      · rw [splitLines_nilRest hnil] at hanch
        simpa using hanch
      · rw [splitLines_consRest hu] at hanch
        simp only [List.all_cons, Bool.and_eq_true] at hanch
        exact hanch.1
    cases hp : patternAtB t chunk with
    | true =>
      have hrm : recordMatches t (lineBody chunk) = true :=
        recordMatches_lineBody_of_pattern ht hp
      rw [matchAll_pattern ht hp]
      rcases lineRest_shape chunk with hnil | ⟨u, hu⟩
      · rw [hnil, matchAll_nil, splitLines_nilRest hnil]
        simp [List.filter_cons, hrm]
      · rw [hu, matchAll_newline ht, splitLines_consRest hu]
        have hlenc : chunk.length = (lineBody chunk).length + (u.length + 1) := by
          conv_lhs => rw [← lineBody_append_lineRest chunk]
          rw [hu]
          simp
        have hanch' : anchoredB t u = true := by
          unfold anchoredB at hanch ⊢
          rw [splitLines_consRest hu] at hanch
          simp only [List.all_cons, Bool.and_eq_true] at hanch
          exact hanch.2
        rw [ih u (by omega) hanch']
        simp [List.filter_cons, hrm]
    | false =>
      have hpb : patternAtB t (lineBody chunk) = false := by
        cases hq : patternAtB t (lineBody chunk) with
        | false => rfl
        | true =>
          have := patternAtB_append (lineRest chunk) hq
          rw [lineBody_append_lineRest chunk, hp] at this
          exact absurd this (by simp)
      have hparts : recordMatches t (lineBody chunk) = false ∧
          noPattern t (lineBody chunk) = true := by
        unfold lineOkB at hhead
        rw [hpb] at hhead
        simp only [Bool.or_false, Bool.false_or, Bool.and_eq_true,
          Bool.not_eq_true'] at hhead
        exact hhead
      have hskip := matchAll_skip ht (lineBody chunk) hparts.2
        (lineRest chunk) (lineRest_shape chunk)
      have hml : matchAll t chunk = matchAll t (lineRest chunk) := by
        conv_lhs => rw [← lineBody_append_lineRest chunk]
        exact hskip
      rcases lineRest_shape chunk with hnil | ⟨u, hu⟩
      · rw [hml, hnil, matchAll_nil, splitLines_nilRest hnil]
        simp [List.filter_cons, hparts.1]
      · rw [hml, hu, matchAll_newline ht, splitLines_consRest hu]
        have hlenc : chunk.length = (lineBody chunk).length + (u.length + 1) := by
          conv_lhs => rw [← lineBody_append_lineRest chunk]
          rw [hu]
          simp
        have hanch' : anchoredB t u = true := by
          unfold anchoredB at hanch ⊢
          rw [splitLines_consRest hu] at hanch
          simp only [List.all_cons, Bool.and_eq_true] at hanch
          exact hanch.2
        rw [ih u (by omega) hanch']
        simp [List.filter_cons, hparts.1]

theorem filterStream_eq_specDemux {chunk : List Char} {t : Char} (ht : t ≠ '\n')
    (h : anchoredB t chunk = true) :
    filterStreamByTarget chunk t = specDemuxFilter chunk t := by
  simp only [filterStreamByTarget, specDemuxFilter]
  rw [matchAll_eq_filter ht chunk.length chunk le_rfl h]

theorem takeWhile_all_append {p : Char → Bool} {s : List Char}
    (h : ∀ c ∈ s, p c = true) (r : List Char) :
    (s ++ r).takeWhile p = s ++ r.takeWhile p := by
  induction s with
  | nil => simp
  | cons c s' ih =>
    have hc := h c (List.mem_cons_self c s')
    simp [List.takeWhile_cons, hc,
      ih (fun x hx => h x (List.mem_cons_of_mem _ hx))]

theorem dropWhile_all_append {p : Char → Bool} {s : List Char}
    (h : ∀ c ∈ s, p c = true) (r : List Char) :
    (s ++ r).dropWhile p = r.dropWhile p := by
  induction s with
  | nil => simp
  | cons c s' ih =>
    have hc := h c (List.mem_cons_self c s')
    simp [List.dropWhile_cons, hc,
      ih (fun x hx => h x (List.mem_cons_of_mem _ hx))]

theorem patternAtB_lineBody_of_pattern {t : Char} {l : List Char} (ht : t ≠ '\n')
    (h : patternAtB t l = true) : patternAtB t (lineBody l) = true := by
  obtain ⟨b, rest, rfl, hb⟩ := patternAtB_shape h
  rw [lineBody_pattern_cons ht hb]
  simp [patternAtB, hb]

theorem matchAll_shape {t : Char} (ht : t ≠ '\n') :
    ∀ (n : Nat) (l : List Char), l.length ≤ n →
      ∀ m ∈ matchAll t l, patternAtB t m = true ∧ ∀ c ∈ m, c ≠ '\n' := by
  intro n
  induction n with
  | zero =>
    intro l hn m hm
    have hl : l = [] := List.length_eq_zero.mp (Nat.le_zero.mp hn)
    subst hl
    simp [matchAll_nil] at hm
  | succ n ih =>
    intro l hn m hm
    cases l with
    | nil => simp [matchAll_nil] at hm
    | cons x xs =>
      cases hp : patternAtB t (x :: xs) with
      | true =>
        rw [matchAll_pattern ht hp] at hm
        rcases List.mem_cons.mp hm with rfl | hm'
        · exact ⟨patternAtB_lineBody_of_pattern ht hp,
            fun c hc => mem_lineBody_ne_newline hc⟩
        · have hlr : (lineRest (x :: xs)).length ≤ n := by
            obtain ⟨b, rest, heq, hb⟩ := patternAtB_shape hp
            rw [heq, lineRest_pattern_cons ht hb]
            have h1 := lineRest_length_le rest
            have h2 : (x :: xs).length = rest.length + 3 := by rw [heq]; simp
            simp only [List.length_cons] at hn h2
            omega
          exact ih (lineRest (x :: xs)) hlr m hm'
      | false =>
        rw [matchAll_cons_none (tryMatch_none hp)] at hm
        simp only [List.length_cons] at hn
        exact ih xs (by omega) m hm

theorem matchAll_joinMatches {t : Char} (ht : t ≠ '\n') :
    ∀ (ms : List (List Char)), ms ≠ [] →
      (∀ m ∈ ms, patternAtB t m = true ∧ ∀ c ∈ m, c ≠ '\n') →
      matchAll t (joinMatches ms ++ ['\n']) = ms := by
  intro ms
  induction ms with
  | nil => intro h _; exact absurd rfl h
  | cons m ms' ih =>
    intro _ hsh
    obtain ⟨hpm, hcm⟩ := hsh m (List.mem_cons_self m ms')
    have hchars : ∀ c ∈ m, (fun c => c != '\n') c = true := by
      intro c hc
      simpa using hcm c hc
    cases ms' with
    | nil =>
      have hjm : joinMatches [m] = m := rfl
      rw [hjm]
      have hp2 : patternAtB t (m ++ ['\n']) = true := patternAtB_append _ hpm
      rw [matchAll_pattern ht hp2]
      have hlb : lineBody (m ++ ['\n']) = m := by
        unfold lineBody
        rw [takeWhile_all_append hchars]
        simp [List.takeWhile_cons]
      have hlr : lineRest (m ++ ['\n']) = ['\n'] := by
        unfold lineRest
        rw [dropWhile_all_append hchars]
        simp [List.dropWhile_cons]
      rw [hlb, hlr, matchAll_newline ht, matchAll_nil]
    | cons m2 ms'' =>
      have hjm : joinMatches (m :: m2 :: ms'') ++ ['\n'] =
          m ++ '\n' :: (joinMatches (m2 :: ms'') ++ ['\n']) := by
        simp [joinMatches]
      rw [hjm]
      have hp2 : patternAtB t (m ++ '\n' :: (joinMatches (m2 :: ms'') ++ ['\n'])) = true :=
        patternAtB_append _ hpm
      rw [matchAll_pattern ht hp2]
      have hlb : lineBody (m ++ '\n' :: (joinMatches (m2 :: ms'') ++ ['\n'])) = m := by
        unfold lineBody
        rw [takeWhile_all_append hchars]
        simp [List.takeWhile_cons]
      have hlr : lineRest (m ++ '\n' :: (joinMatches (m2 :: ms'') ++ ['\n'])) =
          '\n' :: (joinMatches (m2 :: ms'') ++ ['\n']) := by
        unfold lineRest
        rw [dropWhile_all_append hchars]
        simp [List.dropWhile_cons]
      rw [hlb, hlr, matchAll_newline ht]
      rw [ih (by simp) (fun x hx => hsh x (List.mem_cons_of_mem _ hx))]

theorem filterStream_idem {chunk out : List Char} {t : Char} (ht : t ≠ '\n')
    (h : filterStreamByTarget chunk t = some out) :
    filterStreamByTarget out t = some out := by
  simp only [filterStreamByTarget] at h ⊢
  by_cases hl : (matchAll t chunk).length > 0
  · rw [if_pos hl] at h
    have hout : joinMatches (matchAll t chunk) ++ ['\n'] = out := Option.some.inj h
    have hne : matchAll t chunk ≠ [] := by
      intro hc
      rw [hc] at hl
      simp at hl
    have hms : matchAll t out = matchAll t chunk := by
      rw [← hout]
      exact matchAll_joinMatches ht (matchAll t chunk) hne
        (matchAll_shape ht chunk.length chunk le_rfl)
    rw [hms, if_pos hl, hout]
  · rw [if_neg hl] at h
    exact absurd h (by simp)

/-! ### Lemmas about the Request Executor -/

theorem streamFrames_shape (target : Char) :
    ∀ (chunks : List (List Char)) (e : Option String),
      ∃ pre, streamFrames target chunks e =
          pre ++ [match e with | none => OutData.done | some msg => OutData.error msg] ∧
        pre.all isChunkFrame = true := by
  intro chunks
  induction chunks with
  | nil =>
    intro e
    cases e with
    | none => exact ⟨[], rfl, rfl⟩
    | some msg => exact ⟨[], rfl, rfl⟩
  | cons c cs ih =>
    intro e
    obtain ⟨pre, hpre, hall⟩ := ih e
    cases hf : filterStreamByTarget c target with
    | some f =>
      refine ⟨OutData.chunk f :: pre, ?_, ?_⟩
      · simp only [streamFrames, hf, hpre, List.cons_append]
      · simp [List.all_cons, isChunkFrame, hall]
    | none =>
      refine ⟨pre, ?_, hall⟩
      simp only [streamFrames, hf, hpre]

theorem buildMessages_map_id (sid : String) :
    ∀ (ts : List MessageTemplate) (c : Nat),
      (buildMessages sid ts c).map Message.id = List.range' c ts.length := by
  intro ts
  induction ts with
  | nil => intro c; rfl
  | cons t ts' ih =>
    intro c
    simp only [buildMessages, List.map_cons, List.length_cons]
    rw [ih (c + 1)]
    rfl

theorem range'_cons_three (c0 n : Nat) :
    List.range' c0 (n + 3) = c0 :: (c0 + 1) :: (c0 + 2) :: List.range' (c0 + 3) n := rfl

/-! ### Lemmas about the Session Capture Interceptor -/

theorem interceptFetch_cases {α : Type} (realFetch : FetchArgs → α)
    (bridge capture dOk : Bool) (args : FetchArgs) :
    ((interceptFetch realFetch bridge capture dOk args).delivery = none ∧
      (interceptFetch realFetch bridge capture dOk args).newCapture = capture) ∨
    (capture = true ∧ bridge = false ∧
      (interceptFetch realFetch bridge capture dOk args).newCapture = false ∧
      (interceptFetch realFetch bridge capture dOk args).delivery.isSome = true) := by
  unfold interceptFetch
  by_cases hu : (extractUrl args.arg0).length == 0
  · simp [hu]
  · simp only [hu, Bool.false_eq_true, if_false]
    cases hm : findRetryMatch (extractUrl args.arg0) with
    | none => simp
    | some sid =>
      by_cases hb : bridge
      · simp [hb]
      · by_cases hc : capture
        · subst hc
          right
          simp [hb]
        · simp [hb, hc]

theorem countP_done_of_all_chunk {pre : List OutData} (h : pre.all isChunkFrame = true) :
    pre.countP isDoneFrame = 0 := by
  rw [List.countP_eq_zero]
  intro a ha
  have hc := List.all_eq_true.mp h a ha
  cases a with
  | chunk s => simp [isDoneFrame]
  | done => simp [isChunkFrame] at hc
  | error m => simp [isDoneFrame]

theorem exec_valid_frames (p : Payload) (net : FetchResult) (c0 : Nat) (f0 : Bool)
    (h1 : p.session_id ≠ "") (h2 : templatesMissingOrEmpty p.message_templates = false) :
    (executeFetchAndStreamBack p net c0 f0).frames =
      match net with
      | FetchResult.threw msg => [OutData.error msg]
      | FetchResult.got r =>
        if !r.ok || !r.hasBody then [OutData.error (badResponseMsg r)]
        else streamFrames (p.battle_target.getD 'b') r.chunks r.readErr := by
  unfold executeFetchAndStreamBack
  rw [if_neg h1, if_neg (by simp [h2])]

theorem exec_valid_misc (p : Payload) (net : FetchResult) (c0 : Nat) (f0 : Bool)
    (h1 : p.session_id ≠ "") (h2 : templatesMissingOrEmpty p.message_templates = false) :
    (executeFetchAndStreamBack p net c0 f0).networkCalled = true ∧
    (executeFetchAndStreamBack p net c0 f0).flagAtFetch = true ∧
    (executeFetchAndStreamBack p net c0 f0).finalFlag = false ∧
    (executeFetchAndStreamBack p net c0 f0).ids =
      c0 :: (c0 + 1) :: (c0 + 2) ::
        (buildMessages p.session_id (p.message_templates.getD []) (c0 + 3)).map Message.id := by
  unfold executeFetchAndStreamBack
  rw [if_neg h1, if_neg (by simp [h2])]
  exact ⟨rfl, rfl, rfl, rfl⟩

theorem runObservations_le :
    ∀ (obs : List (Bool × Bool × FetchArgs)) (c0 : Bool),
      (runObservations c0 obs).2 ≤ if c0 then 1 else 0 := by
  intro obs
  induction obs with
  | nil => intro c0; simp [runObservations]
  | cons o obs' ih =>
    intro c0
    obtain ⟨bridge, dOk, args⟩ := o
    simp only [runObservations]
    rcases interceptFetch_cases (fun _ => ()) bridge c0 dOk args with ⟨hd, hc⟩ | ⟨hcap, _, hc, hd⟩
    · rw [hd, hc]
      have := ih c0
      simp only [Option.isSome_none, Bool.false_eq_true, if_false, Nat.zero_add]
      exact this
    · rw [hd, hc, hcap]
      have h0 := ih false
      simp only [Bool.false_eq_true, if_false, Nat.le_zero] at h0
      rw [h0]
      simp

/-! ### Claim theorems -/

/-- C1, counterexample: the executor does not generate
`len(message_templates) + 2` identifiers.  For a valid payload with one
template it calls the generator four times (`userMessageId`,
`modelAMessageId`, `modelBMessageId` plus one per template), not three. -/
theorem C1_id_count_counterexample :
    (executeFetchAndStreamBack c1Payload (FetchResult.threw "boom") 0 false).ids.length ≠
      (c1Payload.message_templates.getD []).length + 2 := by decide

/-- C1, amended: for every request frame passing pre-flight validation the
executor generates exactly `len(message_templates) + 3` distinct
identifiers: one per entry of `message_templates`, plus the user-message
identifier and the two participant-slot identifiers. -/
theorem C1_id_count_amended (p : Payload) (net : FetchResult) (c0 : Nat) (f0 : Bool)
    (h1 : p.session_id ≠ "") (h2 : templatesMissingOrEmpty p.message_templates = false) :
    (executeFetchAndStreamBack p net c0 f0).ids.length =
      (p.message_templates.getD []).length + 3 ∧
    (executeFetchAndStreamBack p net c0 f0).ids.Nodup := by
  have hids := (exec_valid_misc p net c0 f0 h1 h2).2.2.2
  rw [hids, buildMessages_map_id, ← range'_cons_three]
  constructor
  · rw [List.length_range']
  · exact List.nodup_range' _ _

/-- C1, witness: the amended count at the concrete one-template payload. -/
theorem C1_id_count_witness :
    (executeFetchAndStreamBack c1Payload (FetchResult.threw "boom") 0 false).ids.length =
      (c1Payload.message_templates.getD []).length + 3 ∧
    (executeFetchAndStreamBack c1Payload (FetchResult.threw "boom") 0 false).ids.Nodup :=
  C1_id_count_amended c1Payload (FetchResult.threw "boom") 0 false (by decide) (by decide)

/-- C2: for every request with non-empty `session_id` and non-empty
`message_templates`, the frame sequence emitted for its `request_id`
contains at most one `[DONE]` and has exactly one terminal event: it is
either data chunks followed by a single error frame with no subsequent
`[DONE]`, or data chunks followed by exactly one final `[DONE]`; in
particular an error emitted during streaming is never followed by
`[DONE]`. -/
theorem C2_terminal_events (p : Payload) (net : FetchResult) (c0 : Nat) (f0 : Bool)
    (h1 : p.session_id ≠ "") (h2 : templatesMissingOrEmpty p.message_templates = false) :
    (executeFetchAndStreamBack p net c0 f0).frames.countP isDoneFrame ≤ 1 ∧
    ((∃ pre msg, (executeFetchAndStreamBack p net c0 f0).frames =
          pre ++ [OutData.error msg] ∧ pre.all isChunkFrame = true) ∨
      (∃ pre, (executeFetchAndStreamBack p net c0 f0).frames =
          pre ++ [OutData.done] ∧ pre.all isChunkFrame = true)) := by
  rw [exec_valid_frames p net c0 f0 h1 h2]
  cases net with
  | threw msg =>
    exact ⟨by simp [List.countP_cons, isDoneFrame], Or.inl ⟨[], msg, by simp, rfl⟩⟩
  | got r =>
    obtain ⟨ok, hasBody, status, errText, chunks, readErr⟩ := r
    dsimp only
    by_cases hok : (!ok || !hasBody) = true
    · rw [if_pos hok]
      exact ⟨by simp [List.countP_cons, isDoneFrame], Or.inl ⟨[], _, rfl, rfl⟩⟩
    · rw [if_neg hok]
      obtain ⟨pre, hpre, hall⟩ :=
        streamFrames_shape (p.battle_target.getD 'b') chunks readErr
      have hzero : pre.countP isDoneFrame = 0 := countP_done_of_all_chunk hall
      cases readErr with
      | none =>
        rw [hpre]
        constructor
        · rw [List.countP_append, hzero]
          simp [List.countP_cons, isDoneFrame]
        · exact Or.inr ⟨pre, rfl, hall⟩
      | some msg =>
        rw [hpre]
        constructor
        · rw [List.countP_append, hzero]
          simp [List.countP_cons, isDoneFrame]
        · exact Or.inl ⟨pre, msg, rfl, hall⟩

/-- C2, witness: terminal-event shape at a concrete valid request whose
fetch throws. -/
theorem C2_terminal_events_witness :
    (executeFetchAndStreamBack c1Payload (FetchResult.threw "boom") 0 false).frames.countP
        isDoneFrame ≤ 1 ∧
    ((∃ pre msg, (executeFetchAndStreamBack c1Payload (FetchResult.threw "boom") 0 false).frames =
          pre ++ [OutData.error msg] ∧ pre.all isChunkFrame = true) ∨
      (∃ pre, (executeFetchAndStreamBack c1Payload (FetchResult.threw "boom") 0 false).frames =
          pre ++ [OutData.done] ∧ pre.all isChunkFrame = true)) :=
  C2_terminal_events c1Payload (FetchResult.threw "boom") 0 false (by decide) (by decide)

/-- C3, counterexample: the demultiplexer is not record-anchored.  On a
chunk whose only record is `a`-tagged but contains `b0:` mid-line, the
record-based reading yields no match while the code extracts the mid-line
text, so the claimed equality with the record-based description fails. -/
theorem C3_demux_counterexample :
    specDemuxFilter c3Chunk 'b' = none ∧
    filterStreamByTarget c3Chunk 'b' = some "b0:hi\"\n".toList := by decide

/-- C3, amended: for chunks in which the sequence `{target}[0d]:` occurs
only at record starts and every two-character-matching record carries its
colon, the demultiplexer returns exactly the records whose leading two
characters match `{target}0` or `{target}d`, in original order, joined
with newline separators and a trailing newline, and `none` when no record
matches; the spec's worked example holds as stated. -/
theorem C3_demux_anchored :
    (∀ (chunk : List Char) (t : Char), t ≠ '\n' → anchoredB t chunk = true →
        filterStreamByTarget chunk t = specDemuxFilter chunk t) ∧
    filterStreamByTarget specExampleChunk 'b' = some specExampleOut := by
  constructor
  · intro chunk t ht h
    exact filterStream_eq_specDemux ht h
  · decide

/-- C3, witness: the anchored equivalence applied at the spec's worked
example chunk. -/
theorem C3_demux_anchored_witness :
    filterStreamByTarget specExampleChunk 'b' = specDemuxFilter specExampleChunk 'b' :=
  C3_demux_anchored.1 specExampleChunk 'b' (by decide) (by decide)

/-- C4: a request frame whose `session_id` is empty or whose
`message_templates` is absent or empty is answered by exactly one error
frame followed by exactly one `[DONE]`, with no network call issued. -/
theorem C4_preflight (p : Payload) (net : FetchResult) (c0 : Nat) (f0 : Bool)
    (h : p.session_id = "" ∨ templatesMissingOrEmpty p.message_templates = true) :
    (∃ msg, (executeFetchAndStreamBack p net c0 f0).frames =
        [OutData.error msg, OutData.done]) ∧
    (executeFetchAndStreamBack p net c0 f0).networkCalled = false := by
  unfold executeFetchAndStreamBack
  rcases h with h | h
  · rw [if_pos h]
    exact ⟨⟨sessionEmptyMsg, rfl⟩, rfl⟩
  · by_cases hs : p.session_id = ""
    · rw [if_pos hs]
      exact ⟨⟨sessionEmptyMsg, rfl⟩, rfl⟩
    · rw [if_neg hs, if_pos h]
      exact ⟨⟨templatesEmptyMsg, rfl⟩, rfl⟩

/-- C4, witness: the pre-flight behaviour at a concrete payload with an
empty `session_id`. -/
theorem C4_preflight_witness :
    (∃ msg, (executeFetchAndStreamBack c4Payload (FetchResult.threw "boom") 0 false).frames =
        [OutData.error msg, OutData.done]) ∧
    (executeFetchAndStreamBack c4Payload (FetchResult.threw "boom") 0 false).networkCalled =
      false :=
  C4_preflight c4Payload (FetchResult.threw "boom") 0 false (by decide)

/-- C5: an observed call flagged as bridge-self-initiated is never
classified as capture-eligible: no session identifier is extracted, no
delivery is attempted and `CaptureMode` is left unchanged, for every
argument list (in particular URLs matching the retry-evaluation path) and
even while capture mode is armed. -/
theorem C5_self_initiated_ignored {α : Type} (realFetch : FetchArgs → α)
    (captureActive deliveryOk : Bool) (args : FetchArgs) :
    (interceptFetch realFetch true captureActive deliveryOk args).delivery = none ∧
    (interceptFetch realFetch true captureActive deliveryOk args).newCapture =
      captureActive ∧
    (interceptFetch realFetch true captureActive deliveryOk args).events = [] := by
  unfold interceptFetch
  by_cases hu : (extractUrl args.arg0).length == 0
  · simp [hu]
  · simp only [hu, Bool.false_eq_true, if_false]
    cases hm : findRetryMatch (extractUrl args.arg0) <;> simp

/-- C6: on a matching observation while armed and not bridge-initiated,
the interceptor disarms capture mode and the disarm event strictly
precedes the single delivery attempt (whatever the delivery outcome);
once disarmed, every observation yields no delivery and leaves the mode
disarmed; the interceptor never arms capture mode (only the explicit
`activate_id_capture` command does); and a whole observation sequence
starting disarmed delivers nothing while one starting armed makes at most
one delivery attempt. -/
theorem C6_single_capture :
    (∀ (α : Type) (realFetch : FetchArgs → α) (dOk : Bool) (args : FetchArgs)
        (sid : List Char), findRetryMatch (extractUrl args.arg0) = some sid →
        (interceptFetch realFetch false true dOk args).newCapture = false ∧
        (interceptFetch realFetch false true dOk args).events =
          [CaptureEvent.disarm, CaptureEvent.deliver sid dOk]) ∧
    (∀ (α : Type) (realFetch : FetchArgs → α) (bridge dOk : Bool) (args : FetchArgs),
        (interceptFetch realFetch bridge false dOk args).delivery = none ∧
        (interceptFetch realFetch bridge false dOk args).newCapture = false) ∧
    (∀ (α : Type) (realFetch : FetchArgs → α) (bridge capture dOk : Bool)
        (args : FetchArgs),
        (interceptFetch realFetch bridge capture dOk args).newCapture = true →
        capture = true) ∧
    (∀ b : Bool, applyCommandCapture Command.activate_id_capture b = true) ∧
    (∀ obs : List (Bool × Bool × FetchArgs), (runObservations false obs).2 = 0) ∧
    (∀ obs : List (Bool × Bool × FetchArgs), (runObservations true obs).2 ≤ 1) := by
  refine ⟨?_, ?_, ?_, ?_, ?_, ?_⟩
  · intro α realFetch dOk args sid h
    have hne : ((extractUrl args.arg0).length == 0) = false := by
      cases hx : extractUrl args.arg0 with
      | nil => rw [hx] at h; simp [findRetryMatch] at h
      | cons c cs => simp
    unfold interceptFetch
    simp [hne, h]
  · intro α realFetch bridge dOk args
    rcases interceptFetch_cases realFetch bridge false dOk args with ⟨hd, hc⟩ | ⟨hcap, _, _, _⟩
    · exact ⟨hd, hc⟩
    · exact absurd hcap (by simp)
  · intro α realFetch bridge capture dOk args h
    rcases interceptFetch_cases realFetch bridge capture dOk args with ⟨_, hc⟩ | ⟨hcap, _, _, _⟩
    · rw [← hc]; exact h
    · exact hcap
  · intro b; rfl
  · intro obs
    have := runObservations_le obs false
    simpa using this
  · intro obs
    have := runObservations_le obs true
    simpa using this

/-- C6, witness: the disarm-before-delivery shape at a concrete armed,
non-bridge observation whose URL matches the capture regex. -/
theorem C6_single_capture_witness :
    (interceptFetch (fun _ => (0 : Nat)) false true true c6Args).newCapture = false ∧
    (interceptFetch (fun _ => (0 : Nat)) false true true c6Args).events =
      [CaptureEvent.disarm, CaptureEvent.deliver c6Sid true] :=
  C6_single_capture.1 Nat (fun _ => (0 : Nat)) true c6Args c6Sid (by decide)

/-- C7: the fetch wrapper is transparent: for every real implementation,
flag state and argument list it returns exactly the real implementation's
result on the unaltered arguments, regardless of capture mode, URL
matching or the self-origination flag. -/
theorem C7_wrapper_transparent {α : Type} (realFetch : FetchArgs → α)
    (bridge capture deliveryOk : Bool) (args : FetchArgs) :
    (interceptFetch realFetch bridge capture deliveryOk args).result = realFetch args := rfl

/-- C8: every request that reaches the submission step runs the network
call with the bridge-self-origination flag set, and on every exit path of
the submission/streaming phase (thrown fetch, failed response status,
mid-stream read error and clean completion alike) the flag ends up
cleared. -/
theorem C8_flag_released (p : Payload) (net : FetchResult) (c0 : Nat) (f0 : Bool)
    (h1 : p.session_id ≠ "") (h2 : templatesMissingOrEmpty p.message_templates = false) :
    (executeFetchAndStreamBack p net c0 f0).networkCalled = true ∧
    (executeFetchAndStreamBack p net c0 f0).flagAtFetch = true ∧
    (executeFetchAndStreamBack p net c0 f0).finalFlag = false := by
  have h := exec_valid_misc p net c0 f0 h1 h2
  exact ⟨h.1, h.2.1, h.2.2.1⟩

/-- C8, witness: flag discipline at a concrete valid request whose fetch
throws. -/
theorem C8_flag_released_witness :
    (executeFetchAndStreamBack c1Payload (FetchResult.threw "boom") 0 true).networkCalled =
      true ∧
    (executeFetchAndStreamBack c1Payload (FetchResult.threw "boom") 0 true).flagAtFetch =
      true ∧
    (executeFetchAndStreamBack c1Payload (FetchResult.threw "boom") 0 true).finalFlag =
      false :=
  C8_flag_released c1Payload (FetchResult.threw "boom") 0 true (by decide) (by decide)

/-- C9: the demultiplexer is deterministic per chunk, idempotent on its
own output for any target other than the newline character (in
particular for the participant tags `a` and `b`), and on a chunk
containing only `b`-tagged records target `a` yields empty while target
`b` yields the chunk itself. -/
theorem C9_deterministic_idempotent :
    (∀ (chunk : List Char) (t : Char),
        filterStreamByTarget chunk t = filterStreamByTarget chunk t) ∧
    (∀ (chunk out : List Char) (t : Char), t ≠ '\n' →
        filterStreamByTarget chunk t = some out →
        filterStreamByTarget out t = some out) ∧
    filterStreamByTarget c9Chunk 'a' = none ∧
    filterStreamByTarget c9Chunk 'b' = some c9Chunk := by
  refine ⟨fun _ _ => rfl, fun chunk out t ht h => filterStream_idem ht h, ?_, ?_⟩ <;> decide

/-- C9, witness: idempotence applied at the concrete `b`-only chunk. -/
theorem C9_deterministic_idempotent_witness :
    filterStreamByTarget c9Chunk 'b' = some c9Chunk :=
  C9_deterministic_idempotent.2.1 c9Chunk c9Chunk 'b' (by decide) (by decide)

/-- C10: the demultiplexer's matching is not anchored to line starts: on
a chunk none of whose records is `b`-tagged but whose payload contains
`bd:` mid-line, the filter extracts the text from that mid-line
occurrence to the end of the line. -/
theorem C10_unanchored_matching :
    (splitLines c10Chunk).all (fun r => !recordMatches 'b' r) = true ∧
    filterStreamByTarget c10Chunk 'b' = some "bd:ev here\"\n".toList := by decide
